import Mathlib

/-!
Verification of the exam-generator web application (creador_examenes).

This file gives a shallow embedding of the pure logic of the repository:

* the per-document question-count distribution
  (`getQuestionCountsPerDocument` in `src/services/geminiService.ts`),
  including the corpus parsing done by its two regular expressions;
* the cloze-card segmenter (`getParsedContent` in the cloze exam component),
  including the semantics of JavaScript `String.prototype.split` with a
  captured separator and the case-insensitive literal matching produced by
  `escapeRegExp` + the `gi` flags;
* the test-mode scoring (`handleSubmit` and the finished branch of
  `ExamTestMode.tsx`);
* the source-attribution link resolution (`createPDFLink`, which exists in
  two variants: the test/cloze components' version with a fuzzy fallback and
  the open component's exact-only version);
* the open-mode evaluation request (`handleCheck` / `evaluateOpenAnswer`);
* the application restart (`handleRestart` in the App component).

Modelling conventions: JavaScript numbers are modelled as exact integers /
rationals (`Math.round x` becomes floor of `x + 1/2`, which matches
`Math.round` on all finite values; the float rounding error of the actual
doubles is not modelled).  In the distribution computation a number is
either an exact integer or NaN (`JSNum`): when every parsed document has
weight 0 the source divides `0 / 0`, which is NaN, and NaN then propagates
through `Math.round`, the `count === 0` test (false for NaN), the running
`distributedCount` and the last document's remainder — the model carries
this NaN instead of collapsing it.  JavaScript strings are Lean `String`s
(so UTF-16 code units become
unicode scalar values; `String.length` of a body becomes the number of
characters).  `toLowerCase` is modelled by `Char.toLower` and `trim` /
`\s` by `Char.isWhitespace`; all strings appearing in the claims are ASCII
plus accented Latin letters, where these agree with JavaScript.  `File`
objects and blob URLs are opaque: a file is a numeric identifier and
`URL.createObjectURL(file) + "#page=" + n` is the pair `(id, n)`.
-/

/-- A JavaScript number as it occurs in the distribution computation:
either an exact integer or NaN.  NaN arises from `0 / 0` when the parsed
documents' total weight is 0 (each weight is at most the total, so a zero
total forces every numerator to 0 as well), and every later arithmetic
operation on it yields NaN again. -/
inductive JSNum
  | nan
  | int (z : ℤ)
deriving DecidableEq

/-- JavaScript `+` on distribution numbers: NaN absorbs. -/
def jsAdd : JSNum → JSNum → JSNum
  | JSNum.int a, JSNum.int b => JSNum.int (a + b)
  | _, _ => JSNum.nan

/-- JavaScript `-` on distribution numbers: NaN absorbs. -/
def jsSub : JSNum → JSNum → JSNum
  | JSNum.int a, JSNum.int b => JSNum.int (a - b)
  | _, _ => JSNum.nan

/-- The sum of a list of distribution numbers (a running `+` from 0). -/
def jsSum (l : List JSNum) : JSNum := l.foldl jsAdd (JSNum.int 0)

/-- `0 <= x` for a distribution number; false for NaN (every comparison
with NaN is false in JS). -/
def JSNum.isNonneg : JSNum → Prop
  | JSNum.nan => False
  | JSNum.int z => 0 ≤ z

instance : DecidablePred JSNum.isNonneg := fun x =>
  match x with
  | JSNum.nan => isFalse id
  | JSNum.int z => inferInstanceAs (Decidable (0 ≤ z))

/-- JavaScript `Math.round (num / den)` for integers, computed exactly for
`den ≠ 0`: `⌊num/den + 1/2⌋ = (2*num + den).fdiv (2*den)`.  For `den = 0`
the program's only reachable case is `num = 0` (a document's weight never
exceeds the total weight), where JS computes `Math.round(0/0) = NaN`. -/
def mathRound (num den : ℤ) : JSNum :=
  if den = 0 then JSNum.nan else JSNum.int ((2 * num + den).fdiv (2 * den))

/-- JavaScript `Math.round` on an exact rational: round half towards +∞. -/
def roundHalfUp (q : ℚ) : ℤ := Rat.floor (q + 1/2)

/-- JavaScript `String.prototype.trim`, on the character list of a string. -/
def jsTrimList (s : List Char) : List Char :=
  ((s.dropWhile Char.isWhitespace).reverse.dropWhile Char.isWhitespace).reverse

/-- JavaScript `String.prototype.trim`. -/
def jsTrim (s : String) : String := ⟨jsTrimList s.data⟩

/-- Case-insensitive equality of two character lists, modelling
`s.toLowerCase() === t.toLowerCase()`. -/
def lowEq (a b : List Char) : Bool := a.map Char.toLower == b.map Char.toLower

/-- Case-sensitive literal prefix test. -/
def litStartsWith (p t : List Char) : Bool := t.take p.length == p

/-- `parseInt(·, 10)` on a non-empty all-digit string. -/
def digitsToNat (ds : List Char) : ℕ :=
  ds.foldl (fun acc c => 10 * acc + (c.toNat - 48)) 0

/-! ## The cloze segmenter (`getParsedContent`, cloze exam component)

The component splits each still-visible part with
`new RegExp('(' + escapeRegExp(word.trim()) + ')', 'gi')`, so the separator
is the literal trimmed word, matched case-insensitively, and — because of
the capturing group — `split` keeps each matched substring (in its original
casing) between the surrounding pieces. -/

/-- JS `text.split(regex)` when the pattern is empty (`word.trim() === ''`,
which happens for whitespace-only words): the result interleaves the
single-character pieces with the empty captured separators, and an empty
input produces `[]`. -/
def splitEmptySep : List Char → List (List Char)
  | [] => []
  | [c] => [[c]]
  | c :: cs => [c] :: [] :: splitEmptySep cs

/-- JS `text.split(regex)` for a non-empty literal separator `w` matched
case-insensitively, keeping the captured separators: scan left to right; at
a match emit the piece before it and the matched substring (original
casing), else move one character.  `fuel` only forces structural
termination; it is called with `fuel = t.length + 1`, which is enough for
the scan to finish, and on exhaustion the remainder is emitted as one piece
(an unreachable case that keeps concatenation exact). -/
def splitSepGo (w : List Char) : ℕ → List Char → List Char → List (List Char)
  | 0, acc, t => [acc.reverse ++ t]
  | _ + 1, acc, [] => [acc.reverse]
  | fuel + 1, acc, c :: cs =>
    if lowEq ((c :: cs).take w.length) w then
      acc.reverse :: (c :: cs).take w.length :: splitSepGo w fuel [] ((c :: cs).drop w.length)
    else
      splitSepGo w fuel (c :: acc) cs

/-- JS `text.split(new RegExp('(' + escapeRegExp(w) + ')', 'gi'))`. -/
def splitKeep (w t : List Char) : List (List Char) :=
  if w.isEmpty then splitEmptySep t else splitSepGo w (t.length + 1) [] t

/-- One element of the `parts` array built by `getParsedContent`:
`{ text, hidden }` for visible runs, `{ text, hidden, word }` for hidden
matches (the component sets `word` to the matched substring `s`). -/
structure Seg where
  text : String
  hidden : Bool
  word : Option String
deriving DecidableEq

/-- The classification the component applies to each piece `s` of the split:
a piece equal (case-insensitively) to the trimmed word becomes a hidden
segment carrying the matched substring; any other non-empty piece stays
visible; empty pieces are dropped. -/
def classifyPiece (wt : List Char) (s : List Char) : Option Seg :=
  if lowEq s wt then some ⟨⟨s⟩, true, some ⟨s⟩⟩
  else if s.isEmpty then none
  else some ⟨⟨s⟩, false, none⟩

/-- One iteration of the `hiddenWords.forEach` loop: empty words are
skipped (`if (!word) return`), hidden parts are kept untouched, and each
visible part is re-split on the trimmed word. -/
def applyWord (parts : List Seg) (word : String) : List Seg :=
  if word.data.isEmpty then parts
  else
    parts.flatMap fun p =>
      if p.hidden then [p]
      else (splitKeep (jsTrim word).data p.text.data).filterMap
        (classifyPiece (jsTrim word).data)

/-- `getParsedContent` of the cloze exam component: start from one visible
part holding the whole `fullText` and fold the hidden words over it. -/
def getParsedContent (fullText : String) (hiddenWords : List String) : List Seg :=
  hiddenWords.foldl applyWord [⟨fullText, false, none⟩]

/-- The characters of a segment list, in order. -/
def segTexts (parts : List Seg) : List Char :=
  (parts.map fun p => p.text.data).flatten

/-- Concatenation of the segments' text (visible runs and hidden segments'
matched substrings alike), in order. -/
def segConcat (parts : List Seg) : String := ⟨segTexts parts⟩

/-! ## Corpus parsing (`getQuestionCountsPerDocument`)

The primary regular expression is
`--- Inicio del documento: (.*?) \| Páginas: (\d+) ---\n([\s\S]*?)\n--- Fin del documento ---`
with the `g` flag; the legacy fallback is the same without the page count.
Lazy groups are modelled by taking, at each candidate start, the least
name length (scanning characters, none of which may be a newline, until the
rest of the pattern matches) and the first occurrence of the end marker for
the lazy body; `exec` in a loop is modelled by advancing one character on
failure and past the whole match on success. -/

def headerLit : List Char := "--- Inicio del documento: ".data

def pagLit : List Char := " | Páginas: ".data

def sepLit : List Char := " ---\n".data

def finLit : List Char := "\n--- Fin del documento ---".data

/-- Find the first occurrence of the end-of-document marker; return the
body before it (the lazy `([\s\S]*?)` group) and the text after it. -/
def findFinSplit (acc : List Char) : List Char → Option (List Char × List Char)
  | [] => none
  | c :: cs =>
    if litStartsWith finLit (c :: cs) then
      some (acc, (c :: cs).drop finLit.length)
    else findFinSplit (acc ++ [c]) cs

/-- Match ` | Páginas: (\d+) ---\n([\s\S]*?)\n--- Fin del documento ---`
at the given position; return page count, body, and the remaining text. -/
def matchAfterNamePrimary (t : List Char) : Option (ℕ × List Char × List Char) :=
  if litStartsWith pagLit t then
    let t2 := t.drop pagLit.length
    let ds := t2.takeWhile Char.isDigit
    if ds.isEmpty then none
    else
      let t3 := t2.drop ds.length
      if litStartsWith sepLit t3 then
        match findFinSplit [] (t3.drop sepLit.length) with
        | some (body, rest) => some (digitsToNat ds, body, rest)
        | none => none
      else none
  else none

/-- The lazy `(.*?)` document-name group of the primary pattern: take the
shortest (possibly empty) run of non-newline characters after which the
rest of the pattern matches. -/
def scanNamePrimary (acc : List Char) : List Char → Option (List Char × ℕ × List Char × List Char)
  | [] =>
    match matchAfterNamePrimary [] with
    | some (p, b, r) => some (acc, p, b, r)
    | none => none
  | c :: cs =>
    match matchAfterNamePrimary (c :: cs) with
    | some (p, b, r) => some (acc, p, b, r)
    | none =>
      if c = '\n' then none else scanNamePrimary (acc ++ [c]) cs

/-- Attempt the whole primary pattern at the start of `t`; on success
return the document (name, page count) and the text after the match. -/
def matchPrimaryAt (t : List Char) : Option ((String × ℕ) × List Char) :=
  if litStartsWith headerLit t then
    match scanNamePrimary [] (t.drop headerLit.length) with
    | some (name, pages, _, rest) => some ((⟨name⟩, pages), rest)
    | none => none
  else none

/-- The `while ((match = docRegex.exec(text)) !== null)` loop: try a match
at every position, resuming after each successful match.  `fuel` is the
input length, which bounds the number of steps since every step consumes at
least one character. -/
def scanPrimaryGo : ℕ → List Char → List (String × ℕ)
  | 0, _ => []
  | _ + 1, [] => []
  | fuel + 1, c :: cs =>
    match matchPrimaryAt (c :: cs) with
    | some (doc, rest) => doc :: scanPrimaryGo fuel rest
    | none => scanPrimaryGo fuel cs

/-- All documents found by the primary pattern, as (name, page count). -/
def scanPrimary (t : List Char) : List (String × ℕ) := scanPrimaryGo t.length t

/-- Match ` ---\n([\s\S]*?)\n--- Fin del documento ---` (legacy pattern,
after the name); return body and remaining text. -/
def matchAfterNameLegacy (t : List Char) : Option (List Char × List Char) :=
  if litStartsWith sepLit t then findFinSplit [] (t.drop sepLit.length)
  else none

/-- The lazy name group of the legacy pattern. -/
def scanNameLegacy (acc : List Char) : List Char → Option (List Char × List Char × List Char)
  | [] =>
    match matchAfterNameLegacy [] with
    | some (b, r) => some (acc, b, r)
    | none => none
  | c :: cs =>
    match matchAfterNameLegacy (c :: cs) with
    | some (b, r) => some (acc, b, r)
    | none =>
      if c = '\n' then none else scanNameLegacy (acc ++ [c]) cs

/-- Attempt the whole legacy pattern at the start of `t`; the weight kept
for a legacy document is the character length of its body group. -/
def matchLegacyAt (t : List Char) : Option ((String × ℕ) × List Char) :=
  if litStartsWith headerLit t then
    match scanNameLegacy [] (t.drop headerLit.length) with
    | some (name, body, rest) => some ((⟨name⟩, body.length), rest)
    | none => none
  else none

/-- The `exec` loop for the legacy pattern. -/
def scanLegacyGo : ℕ → List Char → List (String × ℕ)
  | 0, _ => []
  | _ + 1, [] => []
  | fuel + 1, c :: cs =>
    match matchLegacyAt (c :: cs) with
    | some (doc, rest) => doc :: scanLegacyGo fuel rest
    | none => scanLegacyGo fuel cs

/-- All documents found by the legacy pattern, as (name, body length). -/
def scanLegacy (t : List Char) : List (String × ℕ) := scanLegacyGo t.length t

/-! ## The distribution computation -/

/-- The per-document count computed for a non-last document:
`Math.round((weight / totalWeight) * totalQuestions)`, forced to 1 when it
is 0 and `totalQuestions >= docs.length`. -/
def quota (total : ℤ) (w totalW n : ℕ) : JSNum :=
  if mathRound ((w : ℤ) * total) (totalW : ℤ) = JSNum.int 0 ∧ (n : ℤ) ≤ total then JSNum.int 1
  else mathRound ((w : ℤ) * total) (totalW : ℤ)

/-- The `docs.forEach` loop of `getQuestionCountsPerDocument`: every
document except the last gets its (possibly forced) rounded share, the last
gets `totalQuestions - distributedCount`. -/
def distributeGo (total : ℤ) (totalW n : ℕ) : List (String × ℕ) → JSNum → List (String × JSNum)
  | [], _ => []
  | [d], acc => [(d.1, jsSub (JSNum.int total) acc)]
  | d :: e :: rest, acc =>
    (d.1, quota total d.2 totalW n) ::
      distributeGo total totalW n (e :: rest) (jsAdd acc (quota total d.2 totalW n))

/-- Distribution over an already-parsed document list: empty for 0 or 1
documents, else the forEach loop with the total weight and count. -/
def distribute (docs : List (String × ℕ)) (total : ℤ) : List (String × JSNum) :=
  if docs.length ≤ 1 then []
  else distributeGo total ((docs.map fun d => d.2).sum) docs.length docs (JSNum.int 0)

/-- `getQuestionCountsPerDocument` of `src/services/geminiService.ts`:
parse with the primary pattern (weights = page counts); if it finds
nothing, fall back to the legacy pattern (weights = body lengths). -/
def getQuestionCountsPerDocument (text : String) (totalQuestions : ℤ) : List (String × JSNum) :=
  if (scanPrimary text.data).length = 0 then distribute (scanLegacy text.data) totalQuestions
  else distribute (scanPrimary text.data) totalQuestions

/-- The number of documents the parser finds: the primary pattern's count,
or the legacy pattern's count when the primary finds none. -/
def docCount (text : String) : ℕ :=
  if (scanPrimary text.data).length = 0 then (scanLegacy text.data).length
  else (scanPrimary text.data).length

/-- The total weight the distribution divides by: the page counts summed by
the primary parse, or the body lengths summed by the legacy parse when the
primary finds nothing.  When this is 0 the source's shares are `0/0` and
every computed count is NaN. -/
def docTotalWeight (text : String) : ℕ :=
  if (scanPrimary text.data).length = 0 then ((scanLegacy text.data).map fun d => d.2).sum
  else ((scanPrimary text.data).map fun d => d.2).sum

/-- One document block exactly as `extractTextFromPDFs`
(`src/services/pdfService.ts`) emits it. -/
def docBlock (name pages body : String) : String :=
  "--- Inicio del documento: " ++ name ++ " | Páginas: " ++ pages ++ " ---\n"
    ++ body ++ "\n--- Fin del documento ---\n\n"

/-- A two-document corpus with 100 and 50 pages (the spec's scenario). -/
def corpusTwoDocs : String :=
  docBlock "doc1" "100" "a" ++ docBlock "doc2" "50" "b"

/-- A four-document corpus with one page each. -/
def corpusFourDocs : String :=
  docBlock "A" "1" "w" ++ docBlock "B" "1" "x" ++ docBlock "C" "1" "y"
    ++ docBlock "D" "1" "z"

/-! ## Test-mode scoring (`ExamTestMode.tsx`) -/

/-- `handleSubmit`'s correctness check:
`correctSet.size === selectedSet.size && [...correctSet].every(x => selectedSet.has(x))`
(`Set` size is the number of distinct elements). -/
def isCorrectResponse (selected correct : List ℕ) : Bool :=
  correct.dedup.length == selected.dedup.length
    && correct.dedup.all fun x => decide (x ∈ selected)

/-- The points a submitted response adds to `score`: 1 if correct, else
−0.5 when negative marking is on and 0 otherwise. -/
def pointsFor (selected correct : List ℕ) (negativeMarking : Bool) : ℚ :=
  if isCorrectResponse selected correct then 1
  else if negativeMarking then -(1/2) else 0

/-- The accumulated score over a list of submitted (selected, correct)
responses. -/
def totalScore (responses : List (List ℕ × List ℕ)) (negativeMarking : Bool) : ℚ :=
  (responses.map fun r => pointsFor r.1 r.2 negativeMarking).sum

/-- The finished branch's `Math.round(Math.max(0, (score / maxScore) * 10))`
with `maxScore = questions.length`. -/
def examGrade (score : ℚ) (questionCount : ℕ) : ℤ :=
  roundHalfUp (max 0 (score / (questionCount : ℚ) * 10))

/-- The finished branch's `isPass = grade >= 5`. -/
def examPassed (score : ℚ) (questionCount : ℕ) : Prop :=
  5 ≤ examGrade score questionCount

/-! ## Settings, items and application state (`src/types.ts`, App) -/

inductive ExamType
  | TEST
  | CLOZE_FLASHCARD
  | OPEN_FLASHCARD
deriving DecidableEq

inductive Difficulty
  | EASY
  | MEDIUM
  | HARD
deriving DecidableEq

inductive Benevolence
  | STRICT
  | NORMAL
  | BENEVOLENT
deriving DecidableEq

structure ExamSettings where
  type : ExamType
  questionCount : ℕ
  difficulty : Difficulty
  optionsCount : Option ℕ
  allowMultipleCorrect : Option Bool
  negativeMarking : Option Bool
  maxClozeBlanks : Option ℕ
  autoRead : Option Bool
  timeLimit : Option ℕ
  showSummary : Option Bool
  showSourceFile : Option Bool
  benevolence : Option Benevolence
  voiceURI : Option String
deriving DecidableEq

structure TestQuestion where
  question : String
  options : List String
  correctIndices : List ℕ
  explanation : String
  sourceQuote : String
  sourceFile : Option String
deriving DecidableEq

structure ClozeCard where
  fullText : String
  hiddenWords : List String
  imagePrompt : String
  sourceFile : Option String
deriving DecidableEq

structure OpenQuestion where
  question : String
  modelAnswer : String
  sourceFile : Option String
deriving DecidableEq

inductive AppStep
  | UPLOAD
  | SETTINGS
  | LOADING
  | EXAM
  | RESULTS
deriving DecidableEq

/-- The `AppState` record held in the App component's main `useState`.
`File` objects are opaque numeric identifiers; `uploadedFiles` is an
insertion-ordered map, modelled as an association list. -/
structure AppState where
  step : AppStep
  pdfText : String
  settings : ExamSettings
  testQuestions : List TestQuestion
  clozeCards : List ClozeCard
  openQuestions : List OpenQuestion
  generatedImages : List (ℕ × String)
  uploadedFiles : Option (List (String × ℕ))

/-- All of the App component's `useState` cells: the main state plus the
separately-held loading message, dark mode, fullscreen, zoom and the
generated thematic background image. -/
structure AppComponentState where
  state : AppState
  loadingMessage : String
  isDarkMode : Bool
  isFullScreen : Bool
  zoomLevel : ℚ
  backgroundImage : Option String

/-- `handleRestart` of the App component: spread the previous state, set
`step: 'SETTINGS'` and clear the three item lists; nothing else changes. -/
def handleRestart (s : AppComponentState) : AppComponentState :=
  { s with
    state := { s.state with
      step := AppStep.SETTINGS
      testQuestions := []
      clozeCards := []
      openQuestions := [] } }

/-! ## The open-mode evaluation request -/

/-- The data `evaluateOpenAnswer(question, modelAnswer, userAnswer,
benevolence)` places in its prompt: the three texts plus the benevolence
level that selects the grading-criteria instruction. -/
structure EvalRequest where
  question : String
  modelAnswer : String
  userAnswer : String
  benevolence : Benevolence
deriving DecidableEq

/-- `evaluateOpenAnswer`'s request for explicitly supplied arguments. -/
def evaluateOpenAnswerRequest (question modelAnswer userAnswer : String)
    (benevolence : Benevolence) : EvalRequest :=
  ⟨question, modelAnswer, userAnswer, benevolence⟩

/-- The request issued by `handleCheck` in the open exam component: the
call site is
`evaluateOpenAnswer(currentQuestion.question, currentQuestion.modelAnswer, userAnswer)`,
which omits the fourth argument, so the parameter default `'NORMAL'`
applies no matter what `settings.benevolence` holds. -/
def handleCheckRequest (_settings : ExamSettings) (question modelAnswer userAnswer : String) :
    EvalRequest :=
  evaluateOpenAnswerRequest question modelAnswer userAnswer Benevolence.NORMAL

/-- Settings of an open-mode session configured with the STRICT
benevolence level (as the Settings component produces when the user picks
"Estricto"). -/
def strictOpenSettings : ExamSettings :=
  { type := ExamType.OPEN_FLASHCARD
    questionCount := 5
    difficulty := Difficulty.MEDIUM
    optionsCount := some 4
    allowMultipleCorrect := some false
    negativeMarking := some false
    maxClozeBlanks := some 2
    autoRead := some false
    timeLimit := some 0
    showSummary := some true
    showSourceFile := some false
    benevolence := some Benevolence.STRICT
    voiceURI := none }

/-! ## Source-attribution link resolution (`createPDFLink`) -/

/-- The `{ url, display }` value returned by `createPDFLink`.  A blob URL
with page anchor is the pair (file identifier, page-number string). -/
structure PDFLink where
  url : Option (ℕ × String)
  display : String
deriving DecidableEq

/-- Match `\s*\(Pág\.\s*(\d+)\)$` at the given position (the part of the
attribution pattern after the lazy name group); both `\s*` runs are
deterministic because the following literal is not whitespace. -/
def pagTailMatch (t : List Char) : Option (List Char) :=
  let t1 := t.dropWhile Char.isWhitespace
  if litStartsWith "(Pág.".data t1 then
    let t2 := (t1.drop 5).dropWhile Char.isWhitespace
    let ds := t2.takeWhile Char.isDigit
    if ds.isEmpty then none
    else
      match t2.drop ds.length with
      | [')'] => some ds
      | _ => none
  else none

/-- The lazy `(.+?)` name group of `^(.+?)\s*\(Pág\.\s*(\d+)\)$`: at least
one non-newline character, as few as possible. -/
def sourceNameScan (acc : List Char) : List Char → Option (List Char × List Char)
  | [] => none
  | c :: cs =>
    if c = '\n' then none
    else
      match pagTailMatch cs with
      | some ds => some (acc ++ [c], ds)
      | none => sourceNameScan (acc ++ [c]) cs

/-- `sourceFile.match(/^(.+?)\s*\(Pág\.\s*(\d+)\)$/)`: on success return
the name group and the digit group. -/
def parseSourceFile (s : String) : Option (String × String) :=
  match sourceNameScan [] s.data with
  | some (name, ds) => some (⟨name⟩, ⟨ds⟩)
  | none => none

/-- `name.replace(/\.[^.]+$/, '')`: drop a final `.extension` (a last dot
followed by at least one non-dot character). -/
def stripExt (s : List Char) : List Char :=
  let r := s.reverse
  let i := r.findIdx fun c => c = '.'
  if i = r.length then s
  else if i = 0 then s
  else (r.drop (i + 1)).reverse

/-- The fuzzy comparison key: extension-stripped, lower-cased. -/
def stripExtLower (s : String) : String := ⟨(stripExt s.data).map Char.toLower⟩

/-- `uploadedFiles.get(key)` (exact lookup in the insertion-ordered map). -/
def mapGet (files : List (String × ℕ)) (key : String) : Option ℕ :=
  (files.find? fun e => e.1 == key).map fun e => e.2

/-- The fuzzy fallback loop of the test/cloze `createPDFLink`: the first
entry whose extension-stripped lower-cased name equals the target's. -/
def lookupFuzzy (files : List (String × ℕ)) (key : String) : Option ℕ :=
  (files.find? fun e => stripExtLower e.1 == stripExtLower key).map fun e => e.2

/-- `createPDFLink` as defined in `ExamTestMode.tsx` and in the cloze exam
component: parse the attribution, try the exact map lookup, then the fuzzy
extension-stripped case-insensitive scan, and fall back to a plain
(url-less) display of the attribution text. -/
def createPDFLinkTestCloze (uploadedFiles : Option (List (String × ℕ)))
    (sourceFile : Option String) : PDFLink :=
  match sourceFile, uploadedFiles with
  | none, _ => ⟨none, ""⟩
  | some sf, none => ⟨none, sf⟩
  | some sf, some files =>
    match parseSourceFile sf with
    | none => ⟨none, sf⟩
    | some (filename, pageNum) =>
      match mapGet files (jsTrim filename) with
      | some f => ⟨some (f, pageNum), sf⟩
      | none =>
        match lookupFuzzy files (jsTrim filename) with
        | some f => ⟨some (f, pageNum), sf⟩
        | none => ⟨none, sf⟩

/-- `createPDFLink` as defined in the open exam component: the same parse
and exact lookup, but no fuzzy fallback. -/
def createPDFLinkOpen (uploadedFiles : Option (List (String × ℕ)))
    (sourceFile : Option String) : PDFLink :=
  match sourceFile, uploadedFiles with
  | none, _ => ⟨none, ""⟩
  | some sf, none => ⟨none, sf⟩
  | some sf, some files =>
    match parseSourceFile sf with
    | none => ⟨none, sf⟩
    | some (filename, pageNum) =>
      match mapGet files (jsTrim filename) with
      | some f => ⟨some (f, pageNum), sf⟩
      | none => ⟨none, sf⟩

/-! # Theorems -/

set_option maxRecDepth 400000

theorem flatten_splitSepGo (w : List Char) : ∀ (fuel : ℕ) (acc t : List Char),
    (splitSepGo w fuel acc t).flatten = acc.reverse ++ t := by
  intro fuel
  induction fuel with
  | zero => intro acc t; simp [splitSepGo]
  | succ m ih =>
    intro acc t
    cases t with
    | nil => simp [splitSepGo]
    | cons c cs =>
      simp only [splitSepGo]
      split
      · simp [ih, List.take_append_drop]
      · rw [ih]; simp

theorem flatten_splitEmptySep : ∀ t : List Char, (splitEmptySep t).flatten = t := by
  intro t
  induction t with
  | nil => rfl
  | cons c cs ih =>
    cases cs with
    | nil => rfl
    | cons d ds => simpa [splitEmptySep] using ih

theorem flatten_splitKeep (w t : List Char) : (splitKeep w t).flatten = t := by
  unfold splitKeep
  split
  · exact flatten_splitEmptySep t
  · simpa using flatten_splitSepGo w (t.length + 1) [] t

theorem segTexts_nil : segTexts [] = [] := rfl

theorem segTexts_cons (p : Seg) (l : List Seg) :
    segTexts (p :: l) = p.text.data ++ segTexts l := by
  simp [segTexts]

theorem segTexts_append (a b : List Seg) :
    segTexts (a ++ b) = segTexts a ++ segTexts b := by
  simp [segTexts]

theorem segTexts_classify (wt : List Char) :
    ∀ pieces : List (List Char),
      segTexts (pieces.filterMap (classifyPiece wt)) = pieces.flatten := by
  intro pieces
  induction pieces with
  | nil => rfl
  | cons s ps ih =>
    rcases hcl : classifyPiece wt s with _ | p
    · have hs : s = [] := by
        unfold classifyPiece at hcl
        split_ifs at hcl with h1 h2
        exact List.isEmpty_iff.mp h2
      have hfm : List.filterMap (classifyPiece wt) (s :: ps) =
          List.filterMap (classifyPiece wt) ps := by
        simp [List.filterMap_cons, hcl]
      rw [hfm, ih, hs]
      simp
    · have hp : p.text.data = s := by
        unfold classifyPiece at hcl
        split_ifs at hcl with h1 h2
        · cases hcl; rfl
        · cases hcl; rfl
      have hfm : List.filterMap (classifyPiece wt) (s :: ps) =
          p :: List.filterMap (classifyPiece wt) ps := by
        simp [List.filterMap_cons, hcl]
      rw [hfm, segTexts_cons, ih, hp]
      simp

theorem segTexts_flatMap (wt : List Char) (parts : List Seg) :
    segTexts (parts.flatMap fun p =>
      if p.hidden then [p]
      else (splitKeep wt p.text.data).filterMap (classifyPiece wt)) = segTexts parts := by
  induction parts with
  | nil => rfl
  | cons p ps ih =>
    simp only [List.flatMap_cons, segTexts_append, ih, segTexts_cons]
    by_cases h : p.hidden
    · simp [h, segTexts_cons, segTexts_nil]
    · simp [h, segTexts_classify, flatten_splitKeep]

theorem segTexts_applyWord (parts : List Seg) (w : String) :
    segTexts (applyWord parts w) = segTexts parts := by
  unfold applyWord
  split
  · rfl
  · exact segTexts_flatMap (jsTrim w).data parts

theorem segTexts_foldl (ws : List String) :
    ∀ parts : List Seg, segTexts (ws.foldl applyWord parts) = segTexts parts := by
  induction ws with
  | nil => intro parts; rfl
  | cons w rest ih =>
    intro parts
    rw [List.foldl_cons, ih, segTexts_applyWord]

/-- C2: for every `fullText` and every list of hidden terms, whatever their
casing relative to the text, concatenating the text of the segments
produced by the cloze segmenter, in order (visible runs and hidden
segments' matched substrings alike), reproduces `fullText` exactly. -/
theorem c2_segment_concat_reconstructs (fullText : String) (hiddenWords : List String) :
    segConcat (getParsedContent fullText hiddenWords) = fullText := by
  unfold segConcat getParsedContent
  rw [segTexts_foldl]
  show String.mk (segTexts [⟨fullText, false, none⟩]) = fullText
  rw [segTexts_cons, segTexts_nil, List.append_nil]

theorem applyWord_empty_word (parts : List Seg) : applyWord parts "" = parts := by
  unfold applyWord
  exact if_pos rfl

/-- C7 (amended): a hidden-term list containing an empty term `""` produces
the same segmentation as if that term were absent.  (A blank,
whitespace-only term is NOT a no-op; see the counterexample.) -/
theorem c7_empty_term_noop (fullText : String) (l1 l2 : List String) :
    getParsedContent fullText (l1 ++ "" :: l2) = getParsedContent fullText (l1 ++ l2) := by
  unfold getParsedContent
  rw [List.foldl_append, List.foldl_append, List.foldl_cons, applyWord_empty_word]

/-- C7 counterexample: segmenting `"ab"` with the blank (whitespace-only)
term `" "` does not give the segmentation obtained without it: the code
only skips falsy (empty) terms, and `escapeRegExp(" ".trim())` is the empty
pattern, which splits between every character and marks the empty captures
as hidden segments. -/
theorem c7_counterexample :
    getParsedContent "ab" [" "] ≠ getParsedContent "ab" [] := by decide

theorem classifyPiece_hidden_eq (wt s : List Char) (p : Seg)
    (h : classifyPiece wt s = some p) (hh : p.hidden = true) :
    p.text.data.map Char.toLower = wt.map Char.toLower := by
  unfold classifyPiece at h
  split_ifs at h with h1 h2
  · cases h
    exact eq_of_beq h1
  · cases h
    simp at hh

theorem mem_applyWord_hidden (parts : List Seg) (w : String) (p : Seg)
    (hp : p ∈ applyWord parts w) (hh : p.hidden = true) :
    p ∈ parts ∨ p.text.data.map Char.toLower = (jsTrim w).data.map Char.toLower := by
  unfold applyWord at hp
  split_ifs at hp with h
  · exact Or.inl hp
  · rcases List.mem_flatMap.mp hp with ⟨q, hq, hpq⟩
    by_cases hqh : q.hidden
    · simp only [hqh, if_pos, List.mem_singleton] at hpq
      exact Or.inl (hpq ▸ hq)
    · simp only [hqh, if_neg, Bool.false_eq_true, ite_false] at hpq
      rcases List.mem_filterMap.mp hpq with ⟨s, _, hcl⟩
      exact Or.inr (classifyPiece_hidden_eq _ s p hcl hh)

theorem foldl_applyWord_hidden (ws0 : List String) :
    ∀ (ws : List String) (parts : List Seg),
      (∀ w ∈ ws, w ∈ ws0) →
      (∀ q ∈ parts, q.hidden = true →
        ∃ w ∈ ws0, q.text.data.map Char.toLower = (jsTrim w).data.map Char.toLower) →
      ∀ p ∈ ws.foldl applyWord parts, p.hidden = true →
        ∃ w ∈ ws0, p.text.data.map Char.toLower = (jsTrim w).data.map Char.toLower := by
  intro ws
  induction ws with
  | nil => exact fun parts _ hinv p hp hh => hinv p hp hh
  | cons w rest ih =>
    intro parts hsub hinv p hp hh
    rw [List.foldl_cons] at hp
    refine ih (applyWord parts w) (fun x hx => hsub x (List.mem_cons_of_mem _ hx)) ?_ p hp hh
    intro q hq hqh
    rcases mem_applyWord_hidden parts w q hq hqh with h | h
    · exact hinv q h hqh
    · exact ⟨w, hsub w (List.mem_cons_self w rest), h⟩

/-- C10: every hidden segment in the cloze segmenter's output has text that
equals, case-insensitively, the trimmed form of some term in the card's
`hiddenWords` list — hidden spans arise only from requested terms. -/
theorem c10_hidden_only_from_terms (fullText : String) (hiddenWords : List String)
    (p : Seg) (hp : p ∈ getParsedContent fullText hiddenWords) (hh : p.hidden = true) :
    ∃ w ∈ hiddenWords, p.text.data.map Char.toLower = (jsTrim w).data.map Char.toLower := by
  refine foldl_applyWord_hidden hiddenWords hiddenWords [⟨fullText, false, none⟩]
    (fun _ hx => hx) ?_ p hp hh
  intro q hq hqh
  rw [List.mem_singleton] at hq
  rw [hq] at hqh
  exact absurd hqh (by simp)

/-- C10 witness: in the card "El Sol" with hidden term "sol", the hidden
segment "Sol" matches the requested term case-insensitively. -/
theorem c10_witness :
    ∃ w ∈ ["sol"], ("Sol" : String).data.map Char.toLower
      = (jsTrim w).data.map Char.toLower :=
  c10_hidden_only_from_terms "El Sol" ["sol"] ⟨"Sol", true, some "Sol"⟩ (by decide) rfl

/-- C6: the open-mode `handleCheck` builds its evaluation request without
forwarding the session's configured benevolence level: the call site omits
the argument, so the default `'NORMAL'` is used even though the settings
carry `'STRICT'`.  (This contradicts the settings surface: the Settings
component collects the benevolence level for open mode and passes it to the
exam component, where it is never read.) -/
theorem c6_benevolence_not_forwarded :
    (handleCheckRequest strictOpenSettings "q" "m" "u").benevolence = Benevolence.NORMAL
    ∧ strictOpenSettings.benevolence = some Benevolence.STRICT :=
  ⟨rfl, rfl⟩

/-- C9: restart sets the step to SETTINGS and clears the three accumulated
item lists, leaving every other piece of the application's state — the
corpus text, the uploaded files, the settings, the generated images record,
and the separately held background image and UI toggles — unchanged. -/
theorem c9_restart_frame (s : AppComponentState) :
    (handleRestart s).state.step = AppStep.SETTINGS
    ∧ (handleRestart s).state.testQuestions = []
    ∧ (handleRestart s).state.clozeCards = []
    ∧ (handleRestart s).state.openQuestions = []
    ∧ (handleRestart s).state.pdfText = s.state.pdfText
    ∧ (handleRestart s).state.settings = s.state.settings
    ∧ (handleRestart s).state.generatedImages = s.state.generatedImages
    ∧ (handleRestart s).state.uploadedFiles = s.state.uploadedFiles
    ∧ (handleRestart s).backgroundImage = s.backgroundImage
    ∧ (handleRestart s).loadingMessage = s.loadingMessage
    ∧ (handleRestart s).isDarkMode = s.isDarkMode
    ∧ (handleRestart s).isFullScreen = s.isFullScreen
    ∧ (handleRestart s).zoomLevel = s.zoomLevel :=
  ⟨rfl, rfl, rfl, rfl, rfl, rfl, rfl, rfl, rfl, rfl, rfl, rfl, rfl⟩

theorem mathRound_int (num den : ℤ) (hden : den ≠ 0) :
    mathRound num den = JSNum.int ((2 * num + den).fdiv (2 * den)) := by
  unfold mathRound
  rw [if_neg hden]

theorem mathRound_nan (num : ℤ) : mathRound num 0 = JSNum.nan := by
  unfold mathRound
  rw [if_pos rfl]

theorem mathRound_eq_roundHalfUp (num : ℤ) (den : ℕ) (hd : 0 < den) :
    mathRound num (den : ℤ) = JSNum.int (roundHalfUp ((num : ℚ) / ((den : ℕ) : ℚ))) := by
  rw [mathRound_int num den (by exact_mod_cast hd.ne')]
  congr 1
  unfold roundHalfUp
  have hden : ((den : ℚ)) ≠ 0 := by exact_mod_cast hd.ne'
  have h1 : (num : ℚ) / (den : ℚ) + 1/2
      = ((2 * num + den : ℤ) : ℚ) / (((2 * den : ℕ) : ℕ) : ℚ) := by
    push_cast
    field_simp
    ring
  rw [h1]
  have h2 : Rat.floor (((2 * num + den : ℤ) : ℚ) / (((2 * den : ℕ) : ℕ) : ℚ))
      = (2 * num + den) / ((2 * den : ℕ) : ℤ) := Rat.floor_intCast_div_natCast _ _
  rw [h2, Int.fdiv_eq_ediv _ (by positivity)]
  push_cast
  ring_nf

theorem quota_isNonneg (total : ℤ) (w totalW n : ℕ) (ht : 0 ≤ total)
    (hW : (totalW : ℤ) ≠ 0) :
    JSNum.isNonneg (quota total w totalW n) := by
  unfold quota
  split_ifs with h
  · show (0 : ℤ) ≤ 1
    omega
  · rw [mathRound_int _ _ hW]
    show 0 ≤ (2 * ((w : ℤ) * total) + (totalW : ℤ)).fdiv (2 * (totalW : ℤ))
    have h1 : 0 ≤ (w : ℤ) * total := mul_nonneg (Int.natCast_nonneg w) ht
    have h2 : (0 : ℤ) ≤ (totalW : ℤ) := Int.natCast_nonneg totalW
    exact Int.fdiv_nonneg (by omega) (by omega)

theorem isNonneg_int (x : JSNum) (h : JSNum.isNonneg x) :
    ∃ z : ℤ, x = JSNum.int z ∧ 0 ≤ z := by
  cases x with
  | nan => exact h.elim
  | int z => exact ⟨z, rfl, h⟩

theorem foldl_jsAdd_int (l : List JSNum) (h : ∀ x ∈ l, ∃ z : ℤ, x = JSNum.int z) :
    ∀ a : ℤ, ∃ s : ℤ, l.foldl jsAdd (JSNum.int a) = JSNum.int s := by
  induction l with
  | nil => exact fun a => ⟨a, rfl⟩
  | cons x xs ih =>
    intro a
    rcases h x (List.mem_cons_self x xs) with ⟨z, rfl⟩
    rw [List.foldl_cons]
    exact ih (fun y hy => h y (List.mem_cons_of_mem _ hy)) (a + z)

theorem distributeGo_eq (total : ℤ) (totalW n : ℕ) :
    ∀ (l : List (String × ℕ)) (acc : JSNum) (h : l ≠ []),
      distributeGo total totalW n l acc =
        (l.dropLast.map fun d => (d.1, quota total d.2 totalW n)) ++
          [((l.getLast h).1,
            jsSub (JSNum.int total)
              ((l.dropLast.map fun d => quota total d.2 totalW n).foldl jsAdd acc))] := by
  intro l
  induction l with
  | nil => intro acc h; exact absurd rfl h
  | cons d rest ih =>
    intro acc h
    cases rest with
    | nil => simp [distributeGo]
    | cons e es =>
      have hne : e :: es ≠ [] := List.cons_ne_nil e es
      rw [show distributeGo total totalW n (d :: e :: es) acc
            = (d.1, quota total d.2 totalW n) ::
              distributeGo total totalW n (e :: es) (jsAdd acc (quota total d.2 totalW n))
          from rfl]
      rw [ih (jsAdd acc (quota total d.2 totalW n)) hne]
      rw [List.getLast_cons hne]
      simp only [List.dropLast_cons₂, List.map_cons, List.foldl_cons, List.cons_append]

theorem distribute_tiny (docs : List (String × ℕ)) (total : ℤ) (h : docs.length ≤ 1) :
    distribute docs total = [] := by
  unfold distribute
  rw [if_pos h]

theorem distribute_eq (docs : List (String × ℕ)) (total : ℤ) (hne : docs ≠ [])
    (h2 : 2 ≤ docs.length) :
    distribute docs total =
      (docs.dropLast.map fun d =>
        (d.1, quota total d.2 ((docs.map fun x => x.2).sum) docs.length)) ++
        [((docs.getLast hne).1,
          jsSub (JSNum.int total)
            ((docs.dropLast.map fun d =>
              quota total d.2 ((docs.map fun x => x.2).sum) docs.length).foldl jsAdd
              (JSNum.int 0)))] := by
  unfold distribute
  rw [if_neg (by omega)]
  exact distributeGo_eq _ _ _ docs (JSNum.int 0) hne

/-- The faithful NaN path: a two-document corpus whose parsed weights are
both 0 makes every computed count NaN, exactly as the source's
`Math.round((0/0)*total)` and the NaN-propagating `+=` and `-` do. -/
theorem distribute_zero_weight_nan :
    distribute [("A", 0), ("B", 0)] 5 = [("A", JSNum.nan), ("B", JSNum.nan)] := by decide

theorem distribute_shape (docs : List (String × ℕ)) (total : ℤ) (h2 : 2 ≤ docs.length)
    (ht : 0 ≤ total) (hW : (docs.map fun x => x.2).sum ≠ 0) :
    (distribute docs total).length = docs.length
    ∧ jsSum ((distribute docs total).map fun e => e.2) = JSNum.int total
    ∧ ∀ e ∈ (distribute docs total).dropLast, JSNum.isNonneg e.2 := by
  have hne : docs ≠ [] := by
    intro hnil
    rw [hnil] at h2
    simp at h2
  have hWZ : (((docs.map fun x => x.2).sum : ℕ) : ℤ) ≠ 0 := by exact_mod_cast hW
  have hq : ∀ d ∈ docs.dropLast,
      JSNum.isNonneg (quota total d.2 ((docs.map fun x => x.2).sum) docs.length) :=
    fun d _ => quota_isNonneg total d.2 _ _ ht hWZ
  rw [distribute_eq docs total hne h2]
  refine ⟨?_, ?_, ?_⟩
  · simp [List.length_append, List.length_map, List.length_dropLast]
    omega
  · unfold jsSum
    rw [List.map_append, List.foldl_append]
    have hmm : List.map (fun e => e.2)
        (List.map (fun d =>
          (d.1, quota total d.2 ((docs.map fun x => x.2).sum) docs.length)) docs.dropLast)
        = List.map (fun d =>
            quota total d.2 ((docs.map fun x => x.2).sum) docs.length) docs.dropLast := by
      rw [List.map_map]
      rfl
    rw [hmm]
    have hints : ∀ x ∈ List.map (fun d =>
        quota total d.2 ((docs.map fun x => x.2).sum) docs.length) docs.dropLast,
        ∃ z : ℤ, x = JSNum.int z := by
      intro x hx
      rcases List.mem_map.mp hx with ⟨d, hd, rfl⟩
      rcases isNonneg_int _ (hq d hd) with ⟨z, hz, _⟩
      exact ⟨z, hz⟩
    rcases foldl_jsAdd_int _ hints 0 with ⟨s, hs⟩
    rw [hs]
    simp only [List.map_cons, List.map_nil, List.foldl_cons, List.foldl_nil]
    show JSNum.int (s + (total - s)) = JSNum.int total
    congr 1
    ring
  · rw [List.dropLast_concat]
    intro e he
    rcases List.mem_map.mp he with ⟨d, hd, rfl⟩
    exact hq d hd

/-- C1 (amended): for every corpus in which the parser finds at least two
documents whose weights sum to a positive total, and every
`totalItems ≥ 0`, the distribution has one entry per document, the counts
sum exactly to `totalItems`, and every count except possibly the last is
≥ 0 (the last entry, being the exact remainder, can be negative — see the
counterexample).  A zero total weight (every parsed document reporting 0
pages, resp. an empty body) is excluded: the source then divides `0 / 0`
and every count is NaN, neither summing to `totalItems` nor ≥ 0. -/
theorem c1_distribution_shape (text : String) (total : ℤ)
    (hdocs : 2 ≤ docCount text) (htotal : 0 ≤ total)
    (hweight : 0 < docTotalWeight text) :
    (getQuestionCountsPerDocument text total).length = docCount text
    ∧ jsSum ((getQuestionCountsPerDocument text total).map fun e => e.2) = JSNum.int total
    ∧ ∀ e ∈ (getQuestionCountsPerDocument text total).dropLast, JSNum.isNonneg e.2 := by
  unfold docCount at hdocs ⊢
  unfold docTotalWeight at hweight
  unfold getQuestionCountsPerDocument
  by_cases h : (scanPrimary text.data).length = 0
  · simp only [if_pos h] at hdocs hweight ⊢
    exact distribute_shape _ total hdocs htotal (by omega)
  · simp only [if_neg h] at hdocs hweight ⊢
    exact distribute_shape _ total hdocs htotal (by omega)

/-- C1 witness: the two-document corpus (100 and 50 pages) with 9 items. -/
theorem c1_witness :
    (getQuestionCountsPerDocument corpusTwoDocs 9).length = docCount corpusTwoDocs
    ∧ jsSum ((getQuestionCountsPerDocument corpusTwoDocs 9).map fun e => e.2) = JSNum.int 9
    ∧ ∀ e ∈ (getQuestionCountsPerDocument corpusTwoDocs 9).dropLast, JSNum.isNonneg e.2 :=
  c1_distribution_shape corpusTwoDocs 9 (by decide) (by decide) (by decide)

/-- C1 counterexample: a corpus of four one-page documents with
`totalItems = 2` satisfies the claim's hypotheses (and has positive total
weight, so no NaN is involved), yet the computed counts are
`[1, 1, 1, -1]` — the rounded shares of the first three documents already
exhaust the total, so the last document's remainder is negative and "every
count ≥ 0" fails. -/
theorem c1_counterexample :
    2 ≤ docCount corpusFourDocs ∧ (0 : ℤ) ≤ 2 ∧ 0 < docTotalWeight corpusFourDocs
    ∧ (getQuestionCountsPerDocument corpusFourDocs 2).map (fun e => e.2)
        = [JSNum.int 1, JSNum.int 1, JSNum.int 1, JSNum.int (-1)]
    ∧ ¬ (∀ e ∈ getQuestionCountsPerDocument corpusFourDocs 2, JSNum.isNonneg e.2) := by
  decide

/-- C4: whenever the parser (primary page-count pattern, or the legacy
pattern when the primary finds none) finds 0 or 1 documents,
`getQuestionCountsPerDocument` returns the empty list for every total. -/
theorem c4_few_documents_empty (text : String) (total : ℤ) (h : docCount text ≤ 1) :
    getQuestionCountsPerDocument text total = [] := by
  unfold docCount at h
  unfold getQuestionCountsPerDocument
  by_cases hp : (scanPrimary text.data).length = 0
  · rw [if_pos hp] at h ⊢
    exact distribute_tiny _ total h
  · rw [if_neg hp] at h ⊢
    exact distribute_tiny _ total h

/-- C4 witness: the empty corpus (no documents) with an arbitrary total. -/
theorem c4_witness : getQuestionCountsPerDocument "" 7 = [] :=
  c4_few_documents_empty "" 7 (by decide)

/-- C3: in the distribution over ≥ 2 parsed documents, every non-last
document whose proportional share `round(totalItems * weight / totalWeight)`
is the integer 0 (in particular not NaN — for a zero total weight the share
is NaN, `count === 0` is false, and no quota is forced) receives a forced
quota of 1 whenever `totalItems ≥ documentCount`; the last document always
receives exactly `totalItems` minus the quotas already assigned; and the
concrete two-document corpus with 100 and 50 pages at `totalItems = 9`
yields the quotas [6, 3]. -/
theorem c3_forced_one_and_exact_last (docs : List (String × ℕ)) (total : ℤ)
    (h2 : 2 ≤ docs.length) :
    (∀ i d, docs[i]? = some d → i < docs.length - 1 →
      mathRound (total * (d.2 : ℤ)) (((docs.map fun x => x.2).sum : ℕ) : ℤ)
        = JSNum.int 0 →
      (docs.length : ℤ) ≤ total →
      ((distribute docs total)[i]?).map (fun e => e.2) = some (JSNum.int 1))
    ∧ (distribute docs total).getLast? =
        (docs.getLast?).map (fun d =>
          (d.1, jsSub (JSNum.int total)
            ((((distribute docs total).dropLast).map fun e => e.2).foldl jsAdd
              (JSNum.int 0))))
    ∧ getQuestionCountsPerDocument corpusTwoDocs 9
        = [("doc1", JSNum.int 6), ("doc2", JSNum.int 3)] := by
  have hne : docs ≠ [] := by
    intro hnil
    rw [hnil] at h2
    simp at h2
  have hform := distribute_eq docs total hne h2
  refine ⟨?_, ?_, by decide⟩
  · intro i d hd hi h0 hle
    rw [hform, List.getElem?_append]
    rw [if_pos (by simpa [List.length_dropLast] using hi)]
    rw [List.getElem?_map, List.dropLast_eq_take, List.getElem?_take, if_pos hi, hd]
    simp only [Option.map_map, Option.map_some]
    have hq : quota total d.2 ((docs.map fun x => x.2).sum) docs.length = JSNum.int 1 := by
      unfold quota
      rw [if_pos ⟨by rw [mul_comm] at h0; exact h0, hle⟩]
    simp [hq]
  · rw [hform, List.getLast?_concat, List.dropLast_concat,
      List.getLast?_eq_getLast docs hne]
    simp only [List.map_map, Option.map_some]
    exact rfl

/-- C3 witness: documents weighted 1 and 100 with `totalItems = 5`: the
first document's proportional share rounds to 0 (5/101), so it is forced
to 1; the last gets the exact remainder; the 100/50-page scenario holds. -/
theorem c3_witness :
    ((distribute [("a", 1), ("b", 100)] 5)[0]?).map (fun e => e.2) = some (JSNum.int 1)
    ∧ (distribute [("a", 1), ("b", 100)] 5).getLast? =
        (([("a", 1), ("b", 100)] : List (String × ℕ)).getLast?).map (fun d =>
          (d.1, jsSub (JSNum.int 5)
            ((((distribute [("a", 1), ("b", 100)] 5).dropLast).map fun e => e.2).foldl jsAdd
              (JSNum.int 0))))
    ∧ getQuestionCountsPerDocument corpusTwoDocs 9
        = [("doc1", JSNum.int 6), ("doc2", JSNum.int 3)] :=
  ⟨(c3_forced_one_and_exact_last [("a", 1), ("b", 100)] 5 (by decide)).1 0 ("a", 1)
      (by decide) (by decide) (by decide) (by decide),
    (c3_forced_one_and_exact_last [("a", 1), ("b", 100)] 5 (by decide)).2.1,
    (c3_forced_one_and_exact_last [("a", 1), ("b", 100)] 5 (by decide)).2.2⟩

theorem isCorrectResponse_iff (selected correct : List ℕ) :
    isCorrectResponse selected correct = true ↔ selected.toFinset = correct.toFinset := by
  unfold isCorrectResponse
  rw [Bool.and_eq_true, beq_iff_eq, List.all_eq_true]
  constructor
  · rintro ⟨hlen, hall⟩
    have hsub : correct.toFinset ⊆ selected.toFinset := by
      intro x hx
      rw [List.mem_toFinset] at hx ⊢
      exact of_decide_eq_true (hall x (List.mem_dedup.mpr hx))
    have hcard : selected.toFinset.card ≤ correct.toFinset.card := by
      rw [List.card_toFinset, List.card_toFinset, hlen]
    exact (Finset.eq_of_subset_of_card_le hsub hcard).symm
  · intro heq
    refine ⟨?_, ?_⟩
    · have hcard := congrArg Finset.card heq
      rw [List.card_toFinset, List.card_toFinset] at hcard
      exact hcard.symm
    · intro x hx
      refine decide_eq_true ?_
      have hmem : x ∈ correct.toFinset := List.mem_toFinset.mpr (List.mem_dedup.mp hx)
      rw [← heq] at hmem
      exact List.mem_toFinset.mp hmem

theorem max_zero_div_mul (s : ℚ) (n : ℕ) :
    max 0 s / (n : ℚ) * 10 = max 0 (s / (n : ℚ) * 10) := by
  have h1 : max 0 s / (n : ℚ) * 10 = max 0 s * (10 / (n : ℚ)) := by ring
  have h2 : (0 : ℚ) ≤ 10 / (n : ℚ) := by positivity
  rw [h1, max_mul_of_nonneg _ _ h2, zero_mul]
  congr 1
  ring

/-- C5: in test mode a submitted response is scored correct iff the set of
selected option indices equals the set of correct indices exactly; a
correct response adds 1 point and an incorrect one 0, or −0.5 when negative
marking is on; the final grade is `round(max(0, totalScore)/itemCount*10)`;
the session is passed iff that grade is ≥ 5. -/
theorem c5_test_scoring (selected correct : List ℕ)
    (responses : List (List ℕ × List ℕ)) (neg : Bool) (n : ℕ) (_hn : 0 < n) :
    (isCorrectResponse selected correct = true ↔ selected.toFinset = correct.toFinset)
    ∧ pointsFor selected correct neg =
        (if selected.toFinset = correct.toFinset then (1 : ℚ)
         else if neg then -(1/2) else 0)
    ∧ examGrade (totalScore responses neg) n =
        roundHalfUp (max 0 (totalScore responses neg) / (n : ℚ) * 10)
    ∧ (examPassed (totalScore responses neg) n ↔
        5 ≤ examGrade (totalScore responses neg) n) := by
  refine ⟨isCorrectResponse_iff selected correct, ?_, ?_, Iff.rfl⟩
  · unfold pointsFor
    exact if_congr (isCorrectResponse_iff selected correct) rfl rfl
  · unfold examGrade
    rw [max_zero_div_mul]

/-- C5 witness: two questions, negative marking on; the response [2] to
correct indices [2] is correct, [1] against [2] is not. -/
theorem c5_witness :
    (isCorrectResponse [2] [2] = true ↔ ([2] : List ℕ).toFinset = ([2] : List ℕ).toFinset)
    ∧ pointsFor [2] [2] true =
        (if ([2] : List ℕ).toFinset = ([2] : List ℕ).toFinset then (1 : ℚ)
         else if true then -(1/2) else 0)
    ∧ examGrade (totalScore [([2], [2]), ([1], [2])] true) 2 =
        roundHalfUp (max 0 (totalScore [([2], [2]), ([1], [2])] true) / (2 : ℚ) * 10)
    ∧ (examPassed (totalScore [([2], [2]), ([1], [2])] true) 2 ↔
        5 ≤ examGrade (totalScore [([2], [2]), ([1], [2])] true) 2) :=
  c5_test_scoring [2] [2] [([2], [2]), ([1], [2])] true 2 (by decide)

theorem c8_link_resolution (files : List (String × ℕ)) (sf filename pageNum : String)
    (hparse : parseSourceFile sf = some (filename, pageNum)) :
    (createPDFLinkTestCloze (some files) (some sf)).display = sf
    ∧ (createPDFLinkOpen (some files) (some sf)).display = sf
    ∧ (createPDFLinkTestCloze (some files) (some sf)).url =
        (match mapGet files (jsTrim filename) with
         | some f => some (f, pageNum)
         | none => (lookupFuzzy files (jsTrim filename)).map fun f => (f, pageNum))
    ∧ (createPDFLinkOpen (some files) (some sf)).url =
        (mapGet files (jsTrim filename)).map fun f => (f, pageNum) := by
  simp only [createPDFLinkTestCloze, createPDFLinkOpen, hparse]
  rcases h1 : mapGet files (jsTrim filename) with _ | f
  · rcases h2 : lookupFuzzy files (jsTrim filename) with _ | g
    · simp [h1, h2]
    · simp [h1, h2]
  · simp [h1]

/-- C8 counterexample: with the uploaded file "Doc.pdf" and the attribution
"doc (Pág. 3)", the fuzzy extension-stripped case-insensitive fallback
resolves the link in the test/cloze components, but the open component's
`createPDFLink` has no fuzzy stage and degrades to plain display — so the
two-stage resolution does not hold "in every exam mode". -/
theorem c8_counterexample :
    (createPDFLinkOpen (some [("Doc.pdf", 0)]) (some "doc (Pág. 3)")).url = none
    ∧ (createPDFLinkTestCloze (some [("Doc.pdf", 0)]) (some "doc (Pág. 3)")).url
        = some (0, "3") := by decide

/-- C8 witness: exact resolution of "Doc.pdf (Pág. 2)" in both variants. -/
theorem c8_witness :
    (createPDFLinkTestCloze (some [("Doc.pdf", 0)]) (some "Doc.pdf (Pág. 2)")).display
        = "Doc.pdf (Pág. 2)"
    ∧ (createPDFLinkOpen (some [("Doc.pdf", 0)]) (some "Doc.pdf (Pág. 2)")).display
        = "Doc.pdf (Pág. 2)"
    ∧ (createPDFLinkTestCloze (some [("Doc.pdf", 0)]) (some "Doc.pdf (Pág. 2)")).url =
        (match mapGet [("Doc.pdf", 0)] (jsTrim "Doc.pdf") with
         | some f => some (f, "2")
         | none => (lookupFuzzy [("Doc.pdf", 0)] (jsTrim "Doc.pdf")).map fun f => (f, "2"))
    ∧ (createPDFLinkOpen (some [("Doc.pdf", 0)]) (some "Doc.pdf (Pág. 2)")).url =
        (mapGet [("Doc.pdf", 0)] (jsTrim "Doc.pdf")).map fun f => (f, "2") :=
  c8_link_resolution [("Doc.pdf", 0)] "Doc.pdf (Pág. 2)" "Doc.pdf" "2" (by decide)
